import Mathlib

/-!
Verification development for the decision-maker repository.

The repository contains two React components:
* the weighted spinning-wheel decision maker (`src/unnamed/part_000`),
  embedded below in namespace `Wheel`;
* the binary yes/no decision maker (`src/my-app/src/App.tsx`),
  embedded below in namespace `BinaryApp`.

Strings are embedded as `List Char`; JavaScript numbers that carry
weights, random draws and angles are embedded as `ℚ` (the program only
ever combines them with `+ - * /` and comparisons); `Date.now()` and the
ambient `Math.random()` are passed in as explicit parameters.
-/

/-- Model of JavaScript's `String.prototype.trim`: drop whitespace from
both ends of the character list. -/
def isSpaceChar (c : Char) : Bool :=
  c == ' ' || c == '\t' || c == '\n' || c == '\r'

/-- Trim whitespace from both ends, as `decisionText.trim()` does. -/
def jsTrim (s : List Char) : List Char :=
  ((s.dropWhile isSpaceChar).reverse.dropWhile isSpaceChar).reverse

/-- Lower-casing of a character list, modelling `toLowerCase()`. -/
def toLowerList (s : List Char) : List Char :=
  s.map Char.toLower

/-- Decidable equality for `Except`, so that concrete runs of the
fallible handlers can be checked by evaluation. -/
instance {ε α : Type} [DecidableEq ε] [DecidableEq α] : DecidableEq (Except ε α) := fun x y =>
  match x, y with
  | .error a, .error b =>
    if h : a = b then isTrue (congrArg Except.error h)
    else isFalse (fun hh => h (Except.error.inj hh))
  | .error _, .ok _ => isFalse (fun hh => Except.noConfusion hh)
  | .ok _, .error _ => isFalse (fun hh => Except.noConfusion hh)
  | .ok a, .ok b =>
    if h : a = b then isTrue (congrArg Except.ok h)
    else isFalse (fun hh => h (Except.ok.inj hh))

namespace Wheel

/-- The `team` field of a `DecisionItem`: `"product" | "engineering"`. -/
inductive Team where
  | product
  | engineering
deriving DecidableEq, Repr

/-- `interface DecisionItem` from the source (lines 5-10). -/
structure DecisionItem where
  id : Nat
  decision : List Char
  weight : ℚ
  team : Team
deriving DecidableEq, Repr

/-- The component state relevant to the handlers: `decisionItems`,
`notification`, `isSpinning` and `rotation` (lines 21-29). -/
structure AppState where
  decisionItems : List DecisionItem
  notification : List Char
  isSpinning : Bool
  rotation : ℚ
deriving DecidableEq, Repr

/-- A `setTimeout` request: the delay in milliseconds and the state
update the callback performs when it fires. -/
structure Timer where
  delayMs : Nat
  fire : AppState → AppState

/-- Error message of `handleAddDecision` (lines 96-99). -/
def errAddMsg : List Char :=
  "Error: Decision text and a positive weight (1 or more) are required!".data

/-- Error message of `handleDecide` (lines 127-130). -/
def errInsufficientMsg : List Char :=
  "Error: Please add at least one decision item for each team before deciding!".data

/-- Final message shown after the spin (line 181):
`You should ${selectedItem.decision}!`. -/
def finalMessage (item : DecisionItem) : List Char :=
  "You should ".data ++ item.decision ++ "!".data

/-- `handleAddDecision` (lines 89-115), restricted to its effect on the
registry. `now` stands for `Date.now()`. Note the JavaScript
`weight || 1` on line 93: a weight of `0` is falsy and is replaced by
the default `1` before the `currentWeight <= 0` check on line 95. -/
def handleAddDecision (now : Nat) (decisionText : List Char) (weight : ℚ)
    (team : Team) (items : List DecisionItem) :
    Except (List Char) (List DecisionItem) :=
  let text := jsTrim decisionText
  let currentWeight := if weight = 0 then 1 else weight
  if text = [] ∨ currentWeight ≤ 0 then
    .error errAddMsg
  else
    .ok (items ++ [{ id := now, decision := text, weight := currentWeight, team := team }])

/-- `handleRemoveDecision` (lines 188-190). -/
def handleRemoveDecision (id : Nat) (items : List DecisionItem) :
    List DecisionItem :=
  items.filter (fun item => item.id != id)

/-- `totalWeight` of `handleDecide` (lines 137-141): a fold over all
items that counts an item's weight as `0` when the fairness override is
on and the item belongs to team product. -/
def totalWeight (betterDecision : Bool) (items : List DecisionItem) : ℚ :=
  items.foldl
    (fun sum item =>
      sum + (if betterDecision && (item.team == Team.product) then 0 else item.weight))
    0

/-- The eligible items of a `handleDecide` call: the items the selection
loop does not `continue` past (line 150). -/
def eligibleItems (betterDecision : Bool) (items : List DecisionItem) :
    List DecisionItem :=
  items.filter (fun item => !(betterDecision && (item.team == Team.product)))

/-- The weights of the eligible items, in registry order. -/
def eligibleWeights (betterDecision : Bool) (items : List DecisionItem) :
    List ℚ :=
  (eligibleItems betterDecision items).map (fun item => item.weight)

/-- The selection loop of `handleDecide` (lines 144-162): walk the items
in registry order, skip the excluded ones, keep the running segment
bounds in degrees, subtract each eligible weight from the random draw
and stop at the first item that drives it non-positive. Returns the
selected item with its `winningStartDegree` and `winningEndDegree`, or
`none` when the loop falls through (line 164). -/
def selectLoop (betterDecision : Bool) (total : ℚ) :
    List DecisionItem → ℚ → ℚ → Option (DecisionItem × ℚ × ℚ)
  | [], _, _ => none
  | item :: rest, randomNum, cumulativeWeight =>
    if betterDecision && (item.team == Team.product) then
      selectLoop betterDecision total rest randomNum cumulativeWeight
    else
      let segmentDegrees := item.weight / total * 360
      let winningStartDegree := cumulativeWeight
      let winningEndDegree := cumulativeWeight + segmentDegrees
      let randomNum' := randomNum - item.weight
      if randomNum' ≤ 0 then
        some (item, winningStartDegree, winningEndDegree)
      else
        selectLoop betterDecision total rest randomNum' (cumulativeWeight + segmentDegrees)

/-- The index of the winner of the cumulative-inversion walk over a list
of weights: the first position whose running subtraction of the draw
goes non-positive. Observer used to state properties of `selectLoop`. -/
def selectIdx (r : ℚ) : List ℚ → Option Nat
  | [] => none
  | w :: ws =>
    if r - w ≤ 0 then some 0 else (selectIdx (r - w) ws).map (fun k => k + 1)

/-- Sum of the first `k` entries of a weight list. -/
def prefixSum (ws : List ℚ) : Nat → ℚ
  | 0 => 0
  | k + 1 =>
    match ws with
    | [] => 0
    | w :: ws' => w + prefixSum ws' k

/-- The `[winningStartDegree, winningEndDegree)` pairs the selection
loop computes for successive eligible weights, starting from running
degree `c` (lines 151-153 and 161). -/
def segmentsFrom (total : ℚ) (c : ℚ) : List ℚ → List (ℚ × ℚ)
  | [] => []
  | w :: ws =>
    (c, c + w / total * 360) :: segmentsFrom total (c + w / total * 360) ws

/-- `const fullSpins = 5` (line 172). -/
def fullSpins : ℚ := 5

/-- Target-rotation computation of `handleDecide` (lines 166-173):
`finalDegree = (360 - (winningStartDegree + winningEndDegree) / 2) + fullSpins * 360`. -/
def targetRotation (winningStartDegree winningEndDegree : ℚ) : ℚ :=
  let targetCenterDegree := (winningStartDegree + winningEndDegree) / 2
  (360 - targetCenterDegree) + fullSpins * 360

/-- The delay passed to `setTimeout` at the end of `handleDecide`
(line 184): the literal `0`, annotated "Must match the CSS transition
duration". -/
def decideTimeoutMs : Nat := 0

/-- The CSS transition duration of the wheel in seconds, from
`transform 5s cubic-bezier(0.25, 0.1, 0.25, 1)` in `generateWheelStyle`
(line 81). -/
def spinTransitionSeconds : Nat := 5

/-- The auto-clear delay for notifications (line 198). -/
def notificationClearMs : Nat := 3000

/-- `handleDecide` (lines 118-185) as a state transition. `rand` stands
for the `Math.random()` draw in `[0, 1)`. Returns the updated state and
the `setTimeout` request, if any, scheduled on lines 178-184. -/
def handleDecide (betterDecision : Bool) (rand : ℚ) (s : AppState) :
    AppState × Option Timer :=
  let productDecisions :=
    s.decisionItems.countP (fun item => item.team == Team.product)
  if productDecisions < 1 ∨ s.decisionItems.length - productDecisions < 1 then
    ({ s with notification := errInsufficientMsg }, none)
  else
    let s1 := { s with notification := [] }
    let total := totalWeight betterDecision s.decisionItems
    let randomNum := rand * total
    match selectLoop betterDecision total s.decisionItems randomNum 0 with
    | none => (s1, none)
    | some (item, winningStartDegree, winningEndDegree) =>
      let finalDegree := targetRotation winningStartDegree winningEndDegree
      ({ s1 with rotation := finalDegree },
        some { delayMs := decideTimeoutMs,
               fire := fun st =>
                 { st with isSpinning := false, notification := finalMessage item } })

/-- The `disabled` condition of the decide trigger (line 282):
`decisionItems.length === 0 || isSpinning`. -/
def decideButtonDisabled (s : AppState) : Bool :=
  (s.decisionItems.length == 0) || s.isSpinning

end Wheel

namespace BinaryApp

/-- Error message of `handleSubmit` (lines 20-22 of `App.tsx`). -/
def errAskMsg : List Char :=
  "Error: Please ask a question so the universe can decide!".data

/-- `handleSubmit` of the binary variant (lines 13-38 of `App.tsx`).
`rand` stands for the `Math.random()` draw; the code picks `"SHOULD"`
when `rand < 0.5` and `"SHOULDNT"` otherwise, and interpolates
`decision.toLowerCase()` into the message. -/
def handleSubmit (rand : ℚ) (inputValue : List Char) :
    Except (List Char) (List Char) :=
  let decisionTopic := jsTrim inputValue
  if decisionTopic = [] then
    .error errAskMsg
  else
    let decision := if rand < 1/2 then "SHOULD".data else "SHOULDNT".data
    .ok ("The universe has decided: You ".data ++ toLowerList decision
          ++ " ".data ++ decisionTopic ++ "!".data)

end BinaryApp

/-- Number of adjacent occurrences of the ordered character pair
`(a, b)` in a character list. An occurrence of a substring inside a
larger string can only add such pairs, which is what lets us bound
substring occurrences. -/
def countPair (a b : Char) : List Char → Nat
  | x :: y :: rest => (if x = a ∧ y = b then 1 else 0) + countPair a b (y :: rest)
  | _ => 0

namespace Wheel

lemma prefixSum_zero (ws : List ℚ) : prefixSum ws 0 = 0 := by
  cases ws <;> rfl

lemma prefixSum_succ_cons (w : ℚ) (ws : List ℚ) (k : Nat) :
    prefixSum (w :: ws) (k + 1) = w + prefixSum ws k := rfl

lemma eligibleItems_cons_skip (b : Bool) (i : DecisionItem) (rest : List DecisionItem)
    (h : (b && (i.team == Team.product)) = true) :
    eligibleItems b (i :: rest) = eligibleItems b rest := by
  rw [eligibleItems, eligibleItems, List.filter_cons, h]
  norm_num

lemma eligibleItems_cons_keep (b : Bool) (i : DecisionItem) (rest : List DecisionItem)
    (h : (b && (i.team == Team.product)) = false) :
    eligibleItems b (i :: rest) = i :: eligibleItems b rest := by
  rw [eligibleItems, eligibleItems, List.filter_cons, h]
  norm_num

lemma eligibleWeights_cons_skip (b : Bool) (i : DecisionItem) (rest : List DecisionItem)
    (h : (b && (i.team == Team.product)) = true) :
    eligibleWeights b (i :: rest) = eligibleWeights b rest := by
  rw [eligibleWeights, eligibleWeights, eligibleItems_cons_skip b i rest h]

lemma eligibleWeights_cons_keep (b : Bool) (i : DecisionItem) (rest : List DecisionItem)
    (h : (b && (i.team == Team.product)) = false) :
    eligibleWeights b (i :: rest) = i.weight :: eligibleWeights b rest := by
  rw [eligibleWeights, eligibleWeights, eligibleItems_cons_keep b i rest h, List.map_cons]

lemma totalWeight_go (b : Bool) :
    ∀ (items : List DecisionItem) (acc : ℚ),
      items.foldl
          (fun sum item =>
            sum + (if b && (item.team == Team.product) then 0 else item.weight))
          acc
        = acc + (eligibleWeights b items).sum := by
  intro items
  induction items with
  | nil => intro acc; simp [eligibleWeights, eligibleItems]
  | cons i rest ih =>
    intro acc
    rw [List.foldl_cons]
    by_cases h : (b && (i.team == Team.product)) = true
    · rw [if_pos h, add_zero, ih, eligibleWeights_cons_skip b i rest h]
    · rw [if_neg h, ih]
      rw [eligibleWeights_cons_keep b i rest (Bool.not_eq_true _ ▸ h), List.sum_cons]
      ring

/-- `totalWeight` is the sum of the eligible weights. -/
lemma totalWeight_eq_sum (b : Bool) (items : List DecisionItem) :
    totalWeight b items = (eligibleWeights b items).sum := by
  have h := totalWeight_go b items 0
  rw [zero_add] at h
  exact h

lemma eligibleWeights_pos (b : Bool) (items : List DecisionItem)
    (hw : ∀ i ∈ items, 0 < i.weight) :
    ∀ w ∈ eligibleWeights b items, 0 < w := by
  intro w hwmem
  rcases List.mem_map.mp hwmem with ⟨i, hi, rfl⟩
  exact hw i (List.mem_of_mem_filter hi)

lemma prefixSum_nonneg (ws : List ℚ) (hw : ∀ w ∈ ws, 0 ≤ w) :
    ∀ k, 0 ≤ prefixSum ws k := by
  induction ws with
  | nil => intro k; cases k <;> simp [prefixSum]
  | cons w ws' ih =>
    intro k
    cases k with
    | zero => rw [prefixSum_zero]
    | succ k =>
      have h1 : 0 ≤ w := hw w (List.mem_cons_self w ws')
      have h2 : 0 ≤ prefixSum ws' k := ih (fun x hx => hw x (List.mem_cons_of_mem _ hx)) k
      rw [prefixSum_succ_cons]
      linarith

lemma prefixSum_get? (ws : List ℚ) :
    ∀ (k : Nat) (w : ℚ), ws.get? k = some w →
      prefixSum ws (k + 1) = prefixSum ws k + w := by
  induction ws with
  | nil => intro k w h; simp at h
  | cons x ws' ih =>
    intro k w h
    cases k with
    | zero =>
      rw [List.get?_cons_zero] at h
      cases h
      rw [prefixSum_succ_cons, prefixSum_zero, prefixSum_zero]
      ring
    | succ k =>
      rw [List.get?_cons_succ] at h
      rw [prefixSum_succ_cons, prefixSum_succ_cons, ih k w h]
      ring

lemma prefixSum_length (ws : List ℚ) : prefixSum ws ws.length = ws.sum := by
  induction ws with
  | nil => rfl
  | cons w ws' ih =>
    rw [List.length_cons, prefixSum_succ_cons, ih, List.sum_cons]

/-- Characterization of the cumulative-inversion walk: with positive
weights, index `k` wins exactly when the draw lies in the half-open
interval between the `k`-th and `(k+1)`-th cumulative weights (the very
first interval also contains its left endpoint). -/
lemma selectIdx_eq_some_iff (ws : List ℚ) (hw : ∀ w ∈ ws, 0 < w) :
    ∀ (r : ℚ) (k : Nat), k < ws.length →
      (selectIdx r ws = some k ↔
        ((prefixSum ws k < r ∨ k = 0) ∧ r ≤ prefixSum ws (k + 1))) := by
  induction ws with
  | nil => intro r k hk; simp at hk
  | cons w ws' ih =>
    intro r k hk
    have hw0 : 0 < w := hw w (List.mem_cons_self w ws')
    have hw' : ∀ x ∈ ws', 0 < x := fun x hx => hw x (List.mem_cons_of_mem _ hx)
    have hsel : selectIdx r (w :: ws')
        = if r - w ≤ 0 then some 0 else (selectIdx (r - w) ws').map (fun j => j + 1) := rfl
    cases k with
    | zero =>
      have hps1 : prefixSum (w :: ws') (0 + 1) = w := by
        rw [prefixSum_succ_cons, prefixSum_zero, add_zero]
      constructor
      · intro h
        refine ⟨Or.inr rfl, ?_⟩
        rw [hps1]
        by_cases hc : r - w ≤ 0
        · linarith
        · rw [hsel, if_neg hc] at h
          rcases Option.map_eq_some'.mp h with ⟨j, hj, hj2⟩
          simp at hj2
      · rintro ⟨-, h2⟩
        rw [hps1] at h2
        rw [hsel, if_pos (by linarith)]
    | succ k =>
      have hk' : k < ws'.length := by simpa using hk
      have hpsk : prefixSum (w :: ws') (k + 1) = w + prefixSum ws' k := prefixSum_succ_cons w ws' k
      have hpsk2 : prefixSum (w :: ws') (k + 1 + 1) = w + prefixSum ws' (k + 1) :=
        prefixSum_succ_cons w ws' (k + 1)
      have hpsnn : 0 ≤ prefixSum ws' k :=
        prefixSum_nonneg ws' (fun x hx => le_of_lt (hw' x hx)) k
      by_cases hc : r - w ≤ 0
      · rw [hsel, if_pos hc]
        constructor
        · intro h
          exact absurd (Option.some.inj h) (by omega)
        · rintro ⟨h1 | h1, h2⟩
          · rw [hpsk] at h1
            exact absurd h1 (by push_neg; linarith)
          · exact absurd h1 (by omega)
      · push_neg at hc
        rw [hsel, if_neg (by push_neg; linarith)]
        have hmap : ((selectIdx (r - w) ws').map (fun j => j + 1) = some (k + 1))
            ↔ selectIdx (r - w) ws' = some k := by
          cases hx : selectIdx (r - w) ws' <;> simp
        rw [hmap, ih hw' (r - w) k hk', hpsk, hpsk2]
        constructor
        · rintro ⟨h1 | h1, h2⟩
          · exact ⟨Or.inl (by linarith), by linarith⟩
          · subst h1
            rw [prefixSum_zero]
            exact ⟨Or.inl (by linarith), by linarith⟩
        · rintro ⟨h1 | h1, h2⟩
          · exact ⟨Or.inl (by linarith), by linarith⟩
          · exact absurd h1 (by omega)

/-- Any draw below the total weight produces a winner. -/
lemma selectIdx_isSome (ws : List ℚ) :
    ∀ r : ℚ, 0 ≤ r → r < ws.sum → (selectIdx r ws).isSome = true := by
  induction ws with
  | nil =>
    intro r h0 h1
    rw [List.sum_nil] at h1
    exact absurd h1 (by push_neg; linarith)
  | cons w ws' ih =>
    intro r h0 h1
    rw [List.sum_cons] at h1
    show (if r - w ≤ 0 then some 0 else (selectIdx (r - w) ws').map (fun j => j + 1)).isSome = true
    by_cases hc : r - w ≤ 0
    · rw [if_pos hc]; rfl
    · push_neg at hc
      rw [if_neg (by push_neg; linarith)]
      have hx := ih (r - w) (by linarith) (by linarith)
      rcases Option.isSome_iff_exists.mp hx with ⟨j, hj⟩
      rw [hj]
      rfl

lemma selectIdx_lt_length (ws : List ℚ) :
    ∀ (r : ℚ) (k : Nat), selectIdx r ws = some k → k < ws.length := by
  induction ws with
  | nil => intro r k h; exact absurd h (by simp [selectIdx])
  | cons w ws' ih =>
    intro r k h
    have hsel : selectIdx r (w :: ws')
        = if r - w ≤ 0 then some 0 else (selectIdx (r - w) ws').map (fun j => j + 1) := rfl
    rw [hsel] at h
    by_cases hc : r - w ≤ 0
    · rw [if_pos hc] at h
      cases Option.some.inj h
      simp
    · rw [if_neg hc] at h
      rcases Option.map_eq_some'.mp h with ⟨j, hj, hj2⟩
      have := ih (r - w) j hj
      rw [List.length_cons]
      omega

lemma segmentsFrom_length (total : ℚ) :
    ∀ (ws : List ℚ) (c : ℚ), (segmentsFrom total c ws).length = ws.length := by
  intro ws
  induction ws with
  | nil => intro c; rfl
  | cons w ws' ih =>
    intro c
    show (segmentsFrom total (c + w / total * 360) ws').length + 1 = ws'.length + 1
    rw [ih]

/-- Closed form of the segment list: the `k`-th segment runs from the
`k`-th to the `(k+1)`-th cumulative angular position. -/
lemma segmentsFrom_get? (total : ℚ) :
    ∀ (ws : List ℚ) (c : ℚ) (k : Nat),
      (segmentsFrom total c ws).get? k =
        (ws.get? k).map
          (fun _ => (c + prefixSum ws k / total * 360,
                     c + prefixSum ws (k + 1) / total * 360)) := by
  intro ws
  induction ws with
  | nil => intro c k; rfl
  | cons w ws' ih =>
    intro c k
    cases k with
    | zero =>
      show some (c, c + w / total * 360)
          = some (c + prefixSum (w :: ws') 0 / total * 360,
                  c + prefixSum (w :: ws') (0 + 1) / total * 360)
      rw [prefixSum_zero, prefixSum_succ_cons, prefixSum_zero, add_zero]
      norm_num
    | succ k =>
      show (segmentsFrom total (c + w / total * 360) ws').get? k
          = ((w :: ws').get? (k + 1)).map
              (fun _ => (c + prefixSum (w :: ws') (k + 1) / total * 360,
                         c + prefixSum (w :: ws') (k + 1 + 1) / total * 360))
      rw [ih (c + w / total * 360) k, List.get?_cons_succ,
        prefixSum_succ_cons w ws' k, prefixSum_succ_cons w ws' (k + 1)]
      cases ws'.get? k with
      | none => rfl
      | some x =>
        simp only [Option.map_some']
        have q1 : c + w / total * 360 + prefixSum ws' k / total * 360
            = c + (w + prefixSum ws' k) / total * 360 := by ring
        have q2 : c + w / total * 360 + prefixSum ws' (k + 1) / total * 360
            = c + (w + prefixSum ws' (k + 1)) / total * 360 := by ring
        rw [q1, q2]

/-- Full correspondence between the source's selection loop and the
observers: the loop returns the item and segment bounds found at the
winning index of the cumulative-inversion walk over the eligible
weights. -/
lemma selectLoop_eq (b : Bool) (total : ℚ) :
    ∀ (items : List DecisionItem) (r c : ℚ),
      selectLoop b total items r c =
        (selectIdx r (eligibleWeights b items)).bind fun k =>
          ((eligibleItems b items).get? k).bind fun it =>
            ((segmentsFrom total c (eligibleWeights b items)).get? k).map fun seg =>
              (it, seg.1, seg.2) := by
  intro items
  induction items with
  | nil => intro r c; rfl
  | cons i rest ih =>
    intro r c
    by_cases h : (b && (i.team == Team.product)) = true
    · rw [eligibleWeights_cons_skip b i rest h, eligibleItems_cons_skip b i rest h]
      rw [selectLoop, if_pos h]
      exact ih r c
    · have hb : (b && (i.team == Team.product)) = false := by
        revert h; cases b && (i.team == Team.product) <;> simp
      rw [selectLoop, if_neg h]
      rw [eligibleWeights_cons_keep b i rest hb, eligibleItems_cons_keep b i rest hb]
      have hselx : selectIdx r (i.weight :: eligibleWeights b rest)
          = if r - i.weight ≤ 0 then some 0
            else (selectIdx (r - i.weight) (eligibleWeights b rest)).map (fun j => j + 1) := rfl
      rw [hselx]
      by_cases hc : r - i.weight ≤ 0
      · rw [if_pos hc, if_pos hc]
        rfl
      · rw [if_neg hc, if_neg hc, ih (r - i.weight) (c + i.weight / total * 360)]
        cases hx : selectIdx (r - i.weight) (eligibleWeights b rest) with
        | none => rfl
        | some j => rfl

/-- The two team counts add up to the registry size. -/
lemma countP_team_add (items : List DecisionItem) :
    items.countP (fun i => i.team == Team.product)
      + items.countP (fun i => i.team == Team.engineering) = items.length := by
  induction items with
  | nil => rfl
  | cons i rest ih =>
    rw [List.countP_cons, List.countP_cons, List.length_cons]
    cases hi : i.team <;> simp [hi] <;> omega

lemma eligibleItems_false (items : List DecisionItem) :
    eligibleItems false items = items := by
  rw [eligibleItems]
  apply List.filter_eq_self.mpr
  intro a _
  rfl

lemma eligibleItems_ne_nil (b : Bool) (items : List DecisionItem)
    (hp : 1 ≤ items.countP (fun i => i.team == Team.product))
    (he : 1 ≤ items.countP (fun i => i.team == Team.engineering)) :
    eligibleItems b items ≠ [] := by
  cases b with
  | false =>
    rw [eligibleItems_false]
    rcases List.countP_pos_iff.mp (by omega : 0 < items.countP (fun i => i.team == Team.product))
      with ⟨i, hi, _⟩
    exact List.ne_nil_of_mem hi
  | true =>
    rcases List.countP_pos_iff.mp (by omega : 0 < items.countP (fun i => i.team == Team.engineering))
      with ⟨i, hi, hteam⟩
    have hmem : i ∈ eligibleItems true items := by
      apply List.mem_filter.mpr
      refine ⟨hi, ?_⟩
      have : i.team = Team.engineering := beq_iff_eq.mp hteam
      rw [this]
      rfl
    exact List.ne_nil_of_mem hmem

/-- With at least one item on each team, the precondition check of
`handleDecide` passes and the handler runs the selection loop. -/
lemma handleDecide_eq_of_counts (b : Bool) (rand : ℚ) (s : AppState)
    (hp : 1 ≤ s.decisionItems.countP (fun i => i.team == Team.product))
    (he : 1 ≤ s.decisionItems.countP (fun i => i.team == Team.engineering)) :
    handleDecide b rand s =
      match selectLoop b (totalWeight b s.decisionItems) s.decisionItems
          (rand * totalWeight b s.decisionItems) 0 with
      | none => ({ s with notification := [] }, none)
      | some (item, winningStartDegree, winningEndDegree) =>
        ({ s with notification := [],
                  rotation := targetRotation winningStartDegree winningEndDegree },
          some { delayMs := decideTimeoutMs,
                 fire := fun st =>
                   { st with isSpinning := false, notification := finalMessage item } }) := by
  have hadd := countP_team_add s.decisionItems
  have hle := List.countP_le_length (l := s.decisionItems) (fun i => i.team == Team.product)
  rw [handleDecide, if_neg (by omega)]

/-- Branch-free restatement of `handleAddDecision`, used for case
analysis in the proofs. -/
lemma handleAddDecision_eq (now : Nat) (text : List Char) (weight : ℚ)
    (team : Team) (items : List DecisionItem) :
    handleAddDecision now text weight team items
      = if jsTrim text = [] ∨ (if weight = (0 : ℚ) then (1 : ℚ) else weight) ≤ 0
        then .error errAddMsg
        else .ok (items ++ [{ id := now, decision := jsTrim text,
                              weight := if weight = 0 then 1 else weight,
                              team := team }]) := rfl

/-- C5: a registry with no product item or no engineering item makes
`handleDecide` fail with the insufficient-items error: the notification
is set to the error message, no timer is scheduled (so no selection and
no animation), and the registry, rotation and spinning flag are left
unchanged, whatever the fairness override `b` is. -/
theorem insufficient_items_error (b : Bool) (rand : ℚ) (s : AppState)
    (h : s.decisionItems.countP (fun i => i.team == Team.product) = 0
       ∨ s.decisionItems.countP (fun i => i.team == Team.engineering) = 0) :
    handleDecide b rand s = ({ s with notification := errInsufficientMsg }, none)
    ∧ (handleDecide b rand s).1.decisionItems = s.decisionItems
    ∧ (handleDecide b rand s).1.rotation = s.rotation
    ∧ (handleDecide b rand s).1.isSpinning = s.isSpinning
    ∧ (handleDecide b rand s).2 = none := by
  have hadd := countP_team_add s.decisionItems
  have heq : handleDecide b rand s = ({ s with notification := errInsufficientMsg }, none) := by
    rw [handleDecide, if_pos (by omega)]
  refine ⟨heq, ?_, ?_, ?_, ?_⟩ <;> rw [heq]

/-- Witness for C5 at a concrete registry holding a single product item
(so the engineering count is zero). -/
theorem insufficient_items_error_witness :
    (([{ id := 1, decision := ['a'], weight := 1, team := Team.product }]
        : List DecisionItem).countP (fun i => i.team == Team.product) = 0
      ∨ ([{ id := 1, decision := ['a'], weight := 1, team := Team.product }]
        : List DecisionItem).countP (fun i => i.team == Team.engineering) = 0)
    ∧ handleDecide false 0
        ⟨[{ id := 1, decision := ['a'], weight := 1, team := Team.product }], [], false, 0⟩
      = ({ decisionItems := [{ id := 1, decision := ['a'], weight := 1, team := Team.product }],
           notification := errInsufficientMsg, isSpinning := false, rotation := 0 }, none) :=
  ⟨by decide,
    (insufficient_items_error false 0
      ⟨[{ id := 1, decision := ['a'], weight := 1, team := Team.product }], [], false, 0⟩
      (by decide)).1⟩

/-- C3 counterexample: for the winning segment `[90, 180)` the source
computes `(360 - 135) + 5 * 360 = 2025`, not the `1845` the claim
states. -/
theorem rotation_value_counterexample :
    targetRotation 90 180 = 2025 ∧ targetRotation 90 180 ≠ 1845 := by
  constructor <;> norm_num [targetRotation, fullSpins]

/-- C3 (amended): the target rotation is the pure function
`(360 - (segmentStart + segmentEnd) / 2) + fullSpins * 360` of the
winning segment bounds with `fullSpins = 5`, and the rotation stored by
a successful `handleDecide` is exactly this function of the winner's
segment; for `segmentStart = 90`, `segmentEnd = 180` it equals `2025`. -/
theorem rotation_formula_amended :
    (∀ winningStartDegree winningEndDegree : ℚ,
      targetRotation winningStartDegree winningEndDegree
        = (360 - (winningStartDegree + winningEndDegree) / 2) + fullSpins * 360)
    ∧ targetRotation 90 180 = 2025
    ∧ ∀ (b : Bool) (rand : ℚ) (s : AppState),
        1 ≤ s.decisionItems.countP (fun i => i.team == Team.product) →
        1 ≤ s.decisionItems.countP (fun i => i.team == Team.engineering) →
        ∀ it st en,
          selectLoop b (totalWeight b s.decisionItems) s.decisionItems
              (rand * totalWeight b s.decisionItems) 0 = some (it, st, en) →
          (handleDecide b rand s).1.rotation = targetRotation st en := by
  refine ⟨fun st en => rfl, by norm_num [targetRotation, fullSpins], ?_⟩
  intro b rand s hp he it st en hsel
  rw [handleDecide_eq_of_counts b rand s hp he, hsel]

/-- Witness for C3 (amended) on a concrete two-item registry. -/
theorem rotation_formula_amended_witness :
    (1 ≤ ([{ id := 1, decision := ['a'], weight := 1, team := Team.product },
           { id := 2, decision := ['b'], weight := 1, team := Team.engineering }]
        : List DecisionItem).countP (fun i => i.team == Team.product))
    ∧ (1 ≤ ([{ id := 1, decision := ['a'], weight := 1, team := Team.product },
             { id := 2, decision := ['b'], weight := 1, team := Team.engineering }]
        : List DecisionItem).countP (fun i => i.team == Team.engineering))
    ∧ (handleDecide false 0
        ⟨[{ id := 1, decision := ['a'], weight := 1, team := Team.product },
          { id := 2, decision := ['b'], weight := 1, team := Team.engineering }], [], false, 0⟩).1.rotation
      = targetRotation 0 180 := by
  have hsel : selectLoop false
      (totalWeight false
        [{ id := 1, decision := ['a'], weight := 1, team := Team.product },
         { id := 2, decision := ['b'], weight := 1, team := Team.engineering }])
      [{ id := 1, decision := ['a'], weight := 1, team := Team.product },
       { id := 2, decision := ['b'], weight := 1, team := Team.engineering }]
      (0 * totalWeight false
        [{ id := 1, decision := ['a'], weight := 1, team := Team.product },
         { id := 2, decision := ['b'], weight := 1, team := Team.engineering }]) 0
      = some ({ id := 1, decision := ['a'], weight := 1, team := Team.product }, 0, 180) := by
    norm_num [selectLoop, totalWeight]
  exact ⟨by decide, by decide,
    rotation_formula_amended.2.2 false 0
      ⟨[{ id := 1, decision := ['a'], weight := 1, team := Team.product },
        { id := 2, decision := ['b'], weight := 1, team := Team.engineering }], [], false, 0⟩
      (by decide) (by decide) _ _ _ hsel⟩

/-- C4 counterexample: `add("go out", 0, product)` does not fail — the
JavaScript `weight || 1` replaces the falsy `0` by the default `1`
before the validation check, so the item is appended with weight 1. -/
theorem add_zero_weight_counterexample :
    handleAddDecision 0 "go out".data 0 Team.product []
      = .ok [{ id := 0, decision := "go out".data, weight := 1, team := Team.product }]
    ∧ handleAddDecision 0 "go out".data 0 Team.product [] ≠ .error errAddMsg := by
  have h : handleAddDecision 0 "go out".data 0 Team.product []
      = .ok [{ id := 0, decision := "go out".data, weight := 1, team := Team.product }] := by
    rw [handleAddDecision_eq]
    norm_num
    decide
  exact ⟨h, by rw [h]; exact fun hh => Except.noConfusion hh⟩

/-- C4 (amended): `handleAddDecision` fails with the validation error
exactly when the trimmed label is empty or the weight is negative (a
weight of `0` is replaced by the default `1`, so it does not fail);
every successful add appends exactly one item, so the registry grows by
one. -/
theorem add_validation_amended (now : Nat) (text : List Char) (weight : ℚ)
    (team : Team) (items : List DecisionItem) :
    ((handleAddDecision now text weight team items = .error errAddMsg)
        ↔ (jsTrim text = [] ∨ weight < 0))
    ∧ (∀ items', handleAddDecision now text weight team items = .ok items' →
        items' = items ++ [{ id := now, decision := jsTrim text,
                             weight := if weight = 0 then 1 else weight, team := team }]
        ∧ items'.length = items.length + 1) := by
  have hiff : (jsTrim text = [] ∨ (if weight = (0 : ℚ) then (1 : ℚ) else weight) ≤ 0)
      ↔ (jsTrim text = [] ∨ weight < 0) := by
    by_cases hw : weight = (0 : ℚ)
    · subst hw; norm_num
    · rw [if_neg hw]
      constructor
      · rintro (h | h)
        · exact Or.inl h
        · exact Or.inr (lt_of_le_of_ne h hw)
      · rintro (h | h)
        · exact Or.inl h
        · exact Or.inr (le_of_lt h)
  constructor
  · constructor
    · intro he
      by_cases hcond : jsTrim text = [] ∨ (if weight = (0 : ℚ) then (1 : ℚ) else weight) ≤ 0
      · exact hiff.mp hcond
      · rw [handleAddDecision_eq, if_neg hcond] at he
        exact Except.noConfusion he
    · intro hc
      rw [handleAddDecision_eq, if_pos (hiff.mpr hc)]
  · intro items' ho
    by_cases hcond : jsTrim text = [] ∨ (if weight = (0 : ℚ) then (1 : ℚ) else weight) ≤ 0
    · rw [handleAddDecision_eq, if_pos hcond] at ho
      exact Except.noConfusion ho
    · rw [handleAddDecision_eq, if_neg hcond] at ho
      have := (Except.ok.inj ho).symm
      refine ⟨this, ?_⟩
      rw [this, List.length_append, List.length_cons, List.length_nil]

/-- Witness for C4 (amended): `add("go out", 5, product)` on the empty
registry succeeds and the registry count becomes 1. -/
theorem add_validation_amended_witness :
    handleAddDecision 0 "go out".data 5 Team.product []
        = .ok [{ id := 0, decision := "go out".data, weight := 5, team := Team.product }]
    ∧ ([({ id := 0, decision := "go out".data, weight := 5, team := Team.product }
        : DecisionItem)]).length = 0 + 1 := by
  have hok : handleAddDecision 0 "go out".data 5 Team.product []
      = .ok [{ id := 0, decision := "go out".data, weight := 5, team := Team.product }] := by
    rw [handleAddDecision_eq]
    norm_num
    decide
  refine ⟨hok, ?_⟩
  exact ((add_validation_amended 0 "go out".data 5 Team.product []).2 _ hok).2

/-- C7 counterexample: ids come from `Date.now()`, so two adds within
the same millisecond assign the same id and the no-duplicate-ids
invariant breaks. -/
theorem duplicate_id_counterexample :
    handleAddDecision 5 "b".data 1 Team.engineering
        [{ id := 5, decision := "a".data, weight := 1, team := Team.product }]
      = .ok [{ id := 5, decision := "a".data, weight := 1, team := Team.product },
             { id := 5, decision := "b".data, weight := 1, team := Team.engineering }]
    ∧ ¬ (([{ id := 5, decision := "a".data, weight := 1, team := Team.product },
           { id := 5, decision := "b".data, weight := 1, team := Team.engineering }]
          : List DecisionItem).map (fun i => i.id)).Nodup := by
  constructor
  · rw [handleAddDecision_eq]
    norm_num
    decide
  · decide

/-- C7 (amended): the id of a new item is the `Date.now()` timestamp of
the add; provided that timestamp differs from every id already in the
registry (as when timestamps strictly increase), a successful add keeps
the ids duplicate-free, and removal always keeps them duplicate-free. -/
theorem fresh_id_amended (now : Nat) (text : List Char) (weight : ℚ) (team : Team)
    (items : List DecisionItem)
    (hfresh : ∀ i ∈ items, i.id ≠ now)
    (hnd : (items.map (fun i => i.id)).Nodup) :
    (∀ items', handleAddDecision now text weight team items = .ok items' →
        (items'.map (fun i => i.id)).Nodup)
    ∧ ∀ rid, ((handleRemoveDecision rid items).map (fun i => i.id)).Nodup := by
  constructor
  · intro items' ho
    by_cases hcond : jsTrim text = [] ∨ (if weight = (0 : ℚ) then (1 : ℚ) else weight) ≤ 0
    · rw [handleAddDecision_eq, if_pos hcond] at ho
      exact Except.noConfusion ho
    · rw [handleAddDecision_eq, if_neg hcond] at ho
      rw [← Except.ok.inj ho, List.map_append]
      rw [List.nodup_append]
      refine ⟨hnd, List.nodup_singleton _, ?_⟩
      intro a ha hb
      rcases List.mem_map.mp ha with ⟨i, hi, rfl⟩
      exact hfresh i hi (List.mem_singleton.mp hb)
  · intro rid
    rw [handleRemoveDecision]
    exact List.Nodup.sublist
      (List.Sublist.map (fun i => i.id) (List.filter_sublist items)) hnd

/-- Witness for C7 (amended): an add at a fresh timestamp and a removal
of an unknown id both preserve duplicate-freeness on a concrete
registry. -/
theorem fresh_id_amended_witness :
    (∀ i ∈ ([{ id := 1, decision := ['a'], weight := 1, team := Team.product }]
        : List DecisionItem), i.id ≠ 2)
    ∧ (([{ id := 1, decision := ['a'], weight := 1, team := Team.product }]
        : List DecisionItem).map (fun i => i.id)).Nodup
    ∧ (([{ id := 1, decision := ['a'], weight := 1, team := Team.product },
         { id := 2, decision := ['b'], weight := 1, team := Team.engineering }]
        : List DecisionItem).map (fun i => i.id)).Nodup
    ∧ ((handleRemoveDecision 7
          [{ id := 1, decision := ['a'], weight := 1, team := Team.product }]).map
        (fun i => i.id)).Nodup := by
  have hok : handleAddDecision 2 "b".data 1 Team.engineering
      [{ id := 1, decision := ['a'], weight := 1, team := Team.product }]
      = .ok [{ id := 1, decision := ['a'], weight := 1, team := Team.product },
             { id := 2, decision := ['b'], weight := 1, team := Team.engineering }] := by
    rw [handleAddDecision_eq]
    norm_num
    decide
  refine ⟨by decide, by decide, ?_, ?_⟩
  · exact (fresh_id_amended 2 "b".data 1 Team.engineering
      [{ id := 1, decision := ['a'], weight := 1, team := Team.product }]
      (by decide) (by decide)).1 _ hok
  · exact (fresh_id_amended 2 "b".data 1 Team.engineering
      [{ id := 1, decision := ['a'], weight := 1, team := Team.product }]
      (by decide) (by decide)).2 7

/-- C8: code bug — a successful decide schedules its completion
callback with delay `0` (the literal on line 184), not the 5000 ms that
would match the 5 s CSS transition the comment on that line refers to;
the callback itself does surface the winner's label and clear the
spinning flag. -/
theorem animation_delay_zero_bug :
    decideTimeoutMs = 0
    ∧ decideTimeoutMs ≠ spinTransitionSeconds * 1000
    ∧ ((handleDecide false 0
        ⟨[{ id := 1, decision := ['a'], weight := 1, team := Team.product },
          { id := 2, decision := ['b'], weight := 1, team := Team.engineering }],
          [], false, 0⟩).2.map (fun t => t.delayMs)) = some 0
    ∧ ((handleDecide false 0
        ⟨[{ id := 1, decision := ['a'], weight := 1, team := Team.product },
          { id := 2, decision := ['b'], weight := 1, team := Team.engineering }],
          [], false, 0⟩).2.map (fun t => t.fire ⟨[], [], true, 0⟩))
      = some ⟨[], "You should a!".data, false, 0⟩ := by
  refine ⟨rfl, by decide, ?_, ?_⟩
  · norm_num [handleDecide, selectLoop, totalWeight, targetRotation, fullSpins]
    decide
  · norm_num [handleDecide, selectLoop, totalWeight, targetRotation, fullSpins,
      finalMessage, decideTimeoutMs]
    decide

/-- C9: code bug — `setIsSpinning(true)` is never called: `handleDecide`
leaves the spinning flag exactly as it was in every branch, so after a
successful decide (timer scheduled, animation pending) the flag is still
`false` and the decide trigger is not disabled. -/
theorem spinning_flag_never_set_bug :
    (∀ (b : Bool) (rand : ℚ) (s : AppState),
        (handleDecide b rand s).1.isSpinning = s.isSpinning)
    ∧ (handleDecide false 0
        ⟨[{ id := 1, decision := ['a'], weight := 1, team := Team.product },
          { id := 2, decision := ['b'], weight := 1, team := Team.engineering }],
          [], false, 0⟩).2.isSome = true
    ∧ (handleDecide false 0
        ⟨[{ id := 1, decision := ['a'], weight := 1, team := Team.product },
          { id := 2, decision := ['b'], weight := 1, team := Team.engineering }],
          [], false, 0⟩).1.isSpinning = false
    ∧ decideButtonDisabled (handleDecide false 0
        ⟨[{ id := 1, decision := ['a'], weight := 1, team := Team.product },
          { id := 2, decision := ['b'], weight := 1, team := Team.engineering }],
          [], false, 0⟩).1 = false := by
  refine ⟨?_, ?_, ?_, ?_⟩
  · intro b rand s
    by_cases hcond : (s.decisionItems.countP (fun i => i.team == Team.product) < 1
        ∨ s.decisionItems.length
            - s.decisionItems.countP (fun i => i.team == Team.product) < 1)
    · rw [handleDecide, if_pos hcond]
    · have hadd := countP_team_add s.decisionItems
      have hp : 1 ≤ s.decisionItems.countP (fun i => i.team == Team.product) := by omega
      have he : 1 ≤ s.decisionItems.countP (fun i => i.team == Team.engineering) := by omega
      rw [handleDecide_eq_of_counts b rand s hp he]
      cases hx : selectLoop b (totalWeight b s.decisionItems) s.decisionItems
          (rand * totalWeight b s.decisionItems) 0 with
      | none => rfl
      | some val =>
        obtain ⟨it, st, en⟩ := val
        rfl
  · norm_num [handleDecide, selectLoop, totalWeight, targetRotation, fullSpins]
    decide
  · norm_num [handleDecide, selectLoop, totalWeight, targetRotation, fullSpins]
    decide
  · norm_num [decideButtonDisabled, handleDecide, selectLoop, totalWeight,
      targetRotation, fullSpins]
    decide

/-- C1: the winner of the selection loop is the item at the index found
by the cumulative-inversion walk over the eligible weights (first index
whose running subtraction of the draw goes non-positive); that index is
`k` exactly when the draw lies in the interval from the `k`-th to the
`(k+1)`-th cumulative eligible weight (the first interval containing its
left endpoint, later ones only their right endpoint — registry order
breaks boundary ties); each such interval has length exactly the item's
weight, and the cumulative weights exhaust `[0, totalWeight)`, which is
the cumulative-inversion guarantee `P(item) = weight / totalWeight`. -/
theorem decide_cumulative_inversion (b : Bool) (items : List DecisionItem)
    (hw : ∀ i ∈ items, 0 < i.weight) (r : ℚ) (k : ℕ)
    (hr0 : 0 ≤ r) (hrt : r < totalWeight b items)
    (hk : k < (eligibleWeights b items).length) :
    ((selectLoop b (totalWeight b items) items r 0).map (fun p => p.1)
        = (selectIdx r (eligibleWeights b items)).bind
            (fun j => (eligibleItems b items).get? j))
    ∧ (selectIdx r (eligibleWeights b items) = some k ↔
        ((prefixSum (eligibleWeights b items) k < r ∨ k = 0)
          ∧ r ≤ prefixSum (eligibleWeights b items) (k + 1)))
    ∧ (∀ w, (eligibleWeights b items).get? k = some w →
        prefixSum (eligibleWeights b items) (k + 1)
          = prefixSum (eligibleWeights b items) k + w)
    ∧ prefixSum (eligibleWeights b items) (eligibleWeights b items).length
        = totalWeight b items := by
  refine ⟨?_, selectIdx_eq_some_iff _ (eligibleWeights_pos b items hw) r k hk,
    fun w hwk => prefixSum_get? _ k w hwk,
    by rw [prefixSum_length, totalWeight_eq_sum]⟩
  rw [selectLoop_eq]
  cases hx : selectIdx r (eligibleWeights b items) with
  | none => rfl
  | some j =>
    have hjlen : j < (eligibleWeights b items).length :=
      selectIdx_lt_length _ r j hx
    have hjlen' : j < (eligibleItems b items).length := by
      rw [eligibleWeights, List.length_map] at hjlen
      exact hjlen
    obtain ⟨it, hit⟩ : ∃ it, (eligibleItems b items).get? j = some it :=
      ⟨_, List.get?_eq_get hjlen'⟩
    have hseglen : j < (segmentsFrom (totalWeight b items) 0
        (eligibleWeights b items)).length := by
      rw [segmentsFrom_length]
      exact hjlen
    obtain ⟨sg, hsg⟩ : ∃ sg, (segmentsFrom (totalWeight b items) 0
        (eligibleWeights b items)).get? j = some sg :=
      ⟨_, List.get?_eq_get hseglen⟩
    show (((eligibleItems b items).get? j).bind
        (fun it => ((segmentsFrom (totalWeight b items) 0
            (eligibleWeights b items)).get? j).map
          (fun seg => (it, seg.1, seg.2)))).map (fun p => p.1)
      = (eligibleItems b items).get? j
    rw [hit, hsg]
    rfl

/-- Witness for C1 on a concrete registry of weights 2 and 3 with the
draw `r = 3` landing in the second item's interval `(2, 5]`. -/
theorem decide_cumulative_inversion_witness :
    (∀ i ∈ ([{ id := 1, decision := ['a'], weight := 2, team := Team.product },
             { id := 2, decision := ['b'], weight := 3, team := Team.engineering }]
        : List DecisionItem), 0 < i.weight)
    ∧ (0 : ℚ) ≤ 3
    ∧ (3 : ℚ) < totalWeight false
        [{ id := 1, decision := ['a'], weight := 2, team := Team.product },
         { id := 2, decision := ['b'], weight := 3, team := Team.engineering }]
    ∧ 1 < (eligibleWeights false
        [{ id := 1, decision := ['a'], weight := 2, team := Team.product },
         { id := 2, decision := ['b'], weight := 3, team := Team.engineering }]).length
    ∧ (selectIdx 3 (eligibleWeights false
        [{ id := 1, decision := ['a'], weight := 2, team := Team.product },
         { id := 2, decision := ['b'], weight := 3, team := Team.engineering }]) = some 1 ↔
        ((prefixSum (eligibleWeights false
            [{ id := 1, decision := ['a'], weight := 2, team := Team.product },
             { id := 2, decision := ['b'], weight := 3, team := Team.engineering }]) 1 < 3 ∨ 1 = 0)
          ∧ (3 : ℚ) ≤ prefixSum (eligibleWeights false
            [{ id := 1, decision := ['a'], weight := 2, team := Team.product },
             { id := 2, decision := ['b'], weight := 3, team := Team.engineering }]) (1 + 1))) := by
  have hw : ∀ i ∈ ([{ id := 1, decision := ['a'], weight := 2, team := Team.product },
      { id := 2, decision := ['b'], weight := 3, team := Team.engineering }]
      : List DecisionItem), 0 < i.weight := by
    intro i hi
    rcases List.mem_cons.mp hi with h | hi
    · rw [h]; norm_num
    · rcases List.mem_cons.mp hi with h | hi
      · rw [h]; norm_num
      · exact absurd hi (List.not_mem_nil i)
  have htot : (3 : ℚ) < totalWeight false
      [{ id := 1, decision := ['a'], weight := 2, team := Team.product },
       { id := 2, decision := ['b'], weight := 3, team := Team.engineering }] := by
    norm_num [totalWeight]
  have hlen : 1 < (eligibleWeights false
      [{ id := 1, decision := ['a'], weight := 2, team := Team.product },
       { id := 2, decision := ['b'], weight := 3, team := Team.engineering }]).length := by
    decide
  exact ⟨hw, by norm_num, htot, hlen,
    (decide_cumulative_inversion false _ hw 3 1 (by norm_num) htot hlen).2.1⟩

/-- C2: the segments the loop computes for the eligible weights tile
`[0, 360)` exactly, in registry order: the first segment starts at 0,
each segment ends where the next begins, the last ends at 360, and each
segment's width is weight / totalWeight * 360. -/
theorem segments_tile (b : Bool) (items : List DecisionItem)
    (hw : ∀ i ∈ items, 0 < i.weight)
    (hp : 1 ≤ items.countP (fun i => i.team == Team.product))
    (he : 1 ≤ items.countP (fun i => i.team == Team.engineering)) :
    (∀ p, (segmentsFrom (totalWeight b items) 0 (eligibleWeights b items)).get? 0
        = some p → p.1 = 0)
    ∧ (∀ k p q,
        (segmentsFrom (totalWeight b items) 0 (eligibleWeights b items)).get? k = some p →
        (segmentsFrom (totalWeight b items) 0 (eligibleWeights b items)).get? (k + 1) = some q →
        p.2 = q.1)
    ∧ (∀ p, (segmentsFrom (totalWeight b items) 0 (eligibleWeights b items)).get?
          ((eligibleWeights b items).length - 1) = some p → p.2 = 360)
    ∧ (∀ k p w,
        (segmentsFrom (totalWeight b items) 0 (eligibleWeights b items)).get? k = some p →
        (eligibleWeights b items).get? k = some w →
        p.2 - p.1 = w / totalWeight b items * 360) := by
  have hne : eligibleItems b items ≠ [] := eligibleItems_ne_nil b items hp he
  have hwne : eligibleWeights b items ≠ [] := by
    rw [eligibleWeights]
    intro hcon
    exact hne (List.map_eq_nil_iff.mp hcon)
  have hpos := eligibleWeights_pos b items hw
  have hsum : 0 < (eligibleWeights b items).sum := List.sum_pos _ hpos hwne
  have htot : totalWeight b items = (eligibleWeights b items).sum := totalWeight_eq_sum b items
  have htotpos : 0 < totalWeight b items := by rw [htot]; exact hsum
  have hget := segmentsFrom_get? (totalWeight b items) (eligibleWeights b items) 0
  refine ⟨?_, ?_, ?_, ?_⟩
  · intro p hp0
    rw [hget 0] at hp0
    rcases Option.map_eq_some'.mp hp0 with ⟨w0, hw0, rfl⟩
    show (0 : ℚ) + prefixSum (eligibleWeights b items) 0 / totalWeight b items * 360 = 0
    rw [prefixSum_zero]
    norm_num
  · intro k p q hpk hqk1
    rw [hget k] at hpk
    rw [hget (k + 1)] at hqk1
    rcases Option.map_eq_some'.mp hpk with ⟨wk, hwk, rfl⟩
    rcases Option.map_eq_some'.mp hqk1 with ⟨wk1, hwk1, rfl⟩
    rfl
  · intro p hplast
    rw [hget ((eligibleWeights b items).length - 1)] at hplast
    rcases Option.map_eq_some'.mp hplast with ⟨wl, hwl, rfl⟩
    have hlen : 0 < (eligibleWeights b items).length := List.length_pos.mpr hwne
    have hup : (eligibleWeights b items).length - 1 + 1
        = (eligibleWeights b items).length := by omega
    show (0 : ℚ) + prefixSum (eligibleWeights b items)
        ((eligibleWeights b items).length - 1 + 1) / totalWeight b items * 360 = 360
    rw [hup, prefixSum_length, ← htot, div_self (ne_of_gt htotpos)]
    norm_num
  · intro k p w hpk hwk
    rw [hget k] at hpk
    rcases Option.map_eq_some'.mp hpk with ⟨wk, hwk', rfl⟩
    have hps := prefixSum_get? (eligibleWeights b items) k w hwk
    show (0 : ℚ) + prefixSum (eligibleWeights b items) (k + 1) / totalWeight b items * 360
        - ((0 : ℚ) + prefixSum (eligibleWeights b items) k / totalWeight b items * 360)
        = w / totalWeight b items * 360
    rw [hps]
    ring

/-- Witness for C2 on a concrete registry of weights 1 and 3: the two
segments are `[0, 90)` and `[90, 360)`. -/
theorem segments_tile_witness :
    (∀ i ∈ ([{ id := 1, decision := ['a'], weight := 1, team := Team.product },
             { id := 2, decision := ['b'], weight := 3, team := Team.engineering }]
        : List DecisionItem), 0 < i.weight)
    ∧ (1 ≤ ([{ id := 1, decision := ['a'], weight := 1, team := Team.product },
             { id := 2, decision := ['b'], weight := 3, team := Team.engineering }]
        : List DecisionItem).countP (fun i => i.team == Team.product))
    ∧ (1 ≤ ([{ id := 1, decision := ['a'], weight := 1, team := Team.product },
             { id := 2, decision := ['b'], weight := 3, team := Team.engineering }]
        : List DecisionItem).countP (fun i => i.team == Team.engineering))
    ∧ ∀ p, (segmentsFrom (totalWeight false
          [{ id := 1, decision := ['a'], weight := 1, team := Team.product },
           { id := 2, decision := ['b'], weight := 3, team := Team.engineering }]) 0
          (eligibleWeights false
          [{ id := 1, decision := ['a'], weight := 1, team := Team.product },
           { id := 2, decision := ['b'], weight := 3, team := Team.engineering }])).get?
          ((eligibleWeights false
          [{ id := 1, decision := ['a'], weight := 1, team := Team.product },
           { id := 2, decision := ['b'], weight := 3, team := Team.engineering }]).length - 1)
        = some p → p.2 = 360 := by
  have hw : ∀ i ∈ ([{ id := 1, decision := ['a'], weight := 1, team := Team.product },
      { id := 2, decision := ['b'], weight := 3, team := Team.engineering }]
      : List DecisionItem), 0 < i.weight := by
    intro i hi
    rcases List.mem_cons.mp hi with h | hi
    · rw [h]; norm_num
    · rcases List.mem_cons.mp hi with h | hi
      · rw [h]; norm_num
      · exact absurd hi (List.not_mem_nil i)
  exact ⟨hw, by decide, by decide,
    (segments_tile false _ hw (by decide) (by decide)).2.2.1⟩

/-- C10: under the per-team precondition, positive weights and a random
draw in `[0, 1)`, the selection walk always finds a winner, so the
silent fall-through `if (!selectedItem) return;` branch never executes:
`handleDecide` schedules a timer (a selection and rotation happened). -/
theorem fallback_unreachable (b : Bool) (rand : ℚ) (s : AppState)
    (hw : ∀ i ∈ s.decisionItems, 0 < i.weight)
    (hp : 1 ≤ s.decisionItems.countP (fun i => i.team == Team.product))
    (he : 1 ≤ s.decisionItems.countP (fun i => i.team == Team.engineering))
    (h0 : 0 ≤ rand) (h1 : rand < 1) :
    (selectLoop b (totalWeight b s.decisionItems) s.decisionItems
        (rand * totalWeight b s.decisionItems) 0).isSome = true
    ∧ (handleDecide b rand s).2.isSome = true := by
  have hne : eligibleItems b s.decisionItems ≠ [] :=
    eligibleItems_ne_nil b s.decisionItems hp he
  have hwne : eligibleWeights b s.decisionItems ≠ [] := by
    rw [eligibleWeights]
    intro hcon
    exact hne (List.map_eq_nil_iff.mp hcon)
  have hpos := eligibleWeights_pos b s.decisionItems hw
  have hsum : 0 < (eligibleWeights b s.decisionItems).sum :=
    List.sum_pos _ hpos hwne
  have htot : totalWeight b s.decisionItems = (eligibleWeights b s.decisionItems).sum :=
    totalWeight_eq_sum b s.decisionItems
  have htotpos : 0 < totalWeight b s.decisionItems := by rw [htot]; exact hsum
  have hr0 : 0 ≤ rand * totalWeight b s.decisionItems :=
    mul_nonneg h0 (le_of_lt htotpos)
  have hrt : rand * totalWeight b s.decisionItems
      < (eligibleWeights b s.decisionItems).sum := by
    rw [← htot]
    calc rand * totalWeight b s.decisionItems
        < 1 * totalWeight b s.decisionItems := mul_lt_mul_of_pos_right h1 htotpos
      _ = totalWeight b s.decisionItems := one_mul _
  have hidx := selectIdx_isSome (eligibleWeights b s.decisionItems)
      (rand * totalWeight b s.decisionItems) hr0 hrt
  rcases Option.isSome_iff_exists.mp hidx with ⟨k, hk⟩
  have hklen := selectIdx_lt_length (eligibleWeights b s.decisionItems) _ k hk
  have hklen' : k < (eligibleItems b s.decisionItems).length := by
    rw [eligibleWeights, List.length_map] at hklen
    exact hklen
  have hseglen : k < (segmentsFrom (totalWeight b s.decisionItems) 0
      (eligibleWeights b s.decisionItems)).length := by
    rw [segmentsFrom_length]
    exact hklen
  obtain ⟨it, hit⟩ : ∃ it, (eligibleItems b s.decisionItems).get? k = some it :=
    ⟨_, List.get?_eq_get hklen'⟩
  obtain ⟨sg, hsg⟩ : ∃ sg, (segmentsFrom (totalWeight b s.decisionItems) 0
      (eligibleWeights b s.decisionItems)).get? k = some sg :=
    ⟨_, List.get?_eq_get hseglen⟩
  have hloop : selectLoop b (totalWeight b s.decisionItems) s.decisionItems
      (rand * totalWeight b s.decisionItems) 0 = some (it, sg.1, sg.2) := by
    rw [selectLoop_eq, hk]
    show ((eligibleItems b s.decisionItems).get? k).bind
        (fun it => ((segmentsFrom (totalWeight b s.decisionItems) 0
            (eligibleWeights b s.decisionItems)).get? k).map
          (fun seg => (it, seg.1, seg.2)))
      = some (it, sg.1, sg.2)
    rw [hit, hsg]
    rfl
  constructor
  · rw [hloop]
    rfl
  · rw [handleDecide_eq_of_counts b rand s hp he, hloop]
    rfl

/-- Witness for C10 with the fairness override active on a concrete
two-item registry and the draw 1/2. -/
theorem fallback_unreachable_witness :
    (∀ i ∈ ([{ id := 1, decision := ['a'], weight := 1, team := Team.product },
             { id := 2, decision := ['b'], weight := 1, team := Team.engineering }]
        : List DecisionItem), 0 < i.weight)
    ∧ ((0 : ℚ) ≤ 1/2 ∧ (1/2 : ℚ) < 1)
    ∧ (handleDecide true (1/2)
        ⟨[{ id := 1, decision := ['a'], weight := 1, team := Team.product },
          { id := 2, decision := ['b'], weight := 1, team := Team.engineering }],
          [], false, 0⟩).2.isSome = true := by
  have hw : ∀ i ∈ ([{ id := 1, decision := ['a'], weight := 1, team := Team.product },
      { id := 2, decision := ['b'], weight := 1, team := Team.engineering }]
      : List DecisionItem), 0 < i.weight := by
    intro i hi
    rcases List.mem_cons.mp hi with h | hi
    · rw [h]; norm_num
    · rcases List.mem_cons.mp hi with h | hi
      · rw [h]; norm_num
      · exact absurd hi (List.not_mem_nil i)
  exact ⟨hw, ⟨by norm_num, by norm_num⟩,
    (fallback_unreachable true (1/2)
      ⟨[{ id := 1, decision := ['a'], weight := 1, team := Team.product },
        { id := 2, decision := ['b'], weight := 1, team := Team.engineering }],
        [], false, 0⟩
      hw (by decide) (by decide) (by norm_num) (by norm_num)).2⟩

end Wheel

lemma countPair_nil (a b : Char) : countPair a b [] = 0 := rfl

lemma countPair_single (a b x : Char) : countPair a b [x] = 0 := rfl

lemma countPair_cons_cons (a b x y : Char) (rest : List Char) :
    countPair a b (x :: y :: rest)
      = (if x = a ∧ y = b then 1 else 0) + countPair a b (y :: rest) := rfl

lemma countPair_cons_le (a b c : Char) (l : List Char) :
    countPair a b l ≤ countPair a b (c :: l) := by
  cases l with
  | nil => exact Nat.le_refl 0
  | cons d rest =>
    rw [countPair_cons_cons]
    exact Nat.le_add_left _ _

lemma countPair_le_append_left (a b : Char) (s l : List Char) :
    countPair a b l ≤ countPair a b (s ++ l) := by
  induction s with
  | nil => exact Nat.le_refl _
  | cons c s' ih => exact le_trans ih (countPair_cons_le a b c (s' ++ l))

lemma countPair_le_append_right (a b : Char) :
    ∀ (l t : List Char), countPair a b l ≤ countPair a b (l ++ t) := by
  intro l
  induction l with
  | nil => intro t; exact Nat.zero_le _
  | cons c l' ih =>
    intro t
    cases l' with
    | nil => exact Nat.zero_le _
    | cons d l'' =>
      rw [show ((c :: d :: l'') ++ t) = c :: d :: (l'' ++ t) from rfl,
        countPair_cons_cons, countPair_cons_cons]
      have hx := ih t
      rw [show ((d :: l'') ++ t) = d :: (l'' ++ t) from rfl] at hx
      exact Nat.add_le_add_left hx _

/-- Occurrences of an adjacent pair in an infix never exceed those in
the whole list. -/
lemma countPair_infix_le (a b : Char) (l₁ l₂ : List Char) (h : l₁ <:+: l₂) :
    countPair a b l₁ ≤ countPair a b l₂ := by
  rcases h with ⟨s, t, rfl⟩
  calc countPair a b l₁ ≤ countPair a b (l₁ ++ t) := countPair_le_append_right a b l₁ t
    _ ≤ countPair a b (s ++ (l₁ ++ t)) := countPair_le_append_left a b s (l₁ ++ t)
    _ = countPair a b (s ++ l₁ ++ t) := by rw [List.append_assoc]

/-- Appending after a list whose last character is not `a` adds the
pair counts exactly. -/
lemma countPair_append_left_eq (a b : Char) :
    ∀ (x y : List Char), x.getLast? ≠ some a →
      countPair a b (x ++ y) = countPair a b x + countPair a b y := by
  intro x
  induction x with
  | nil => intro y h; rw [List.nil_append, countPair_nil, Nat.zero_add]
  | cons c x' ih =>
    intro y h
    cases x' with
    | nil =>
      have hca : c ≠ a := by
        intro hc
        exact h (by rw [hc]; rfl)
      rw [countPair_single, Nat.zero_add]
      cases y with
      | nil => rfl
      | cons d y' =>
        rw [show ([c] ++ d :: y') = c :: d :: y' from rfl, countPair_cons_cons,
          if_neg (fun hh => hca hh.1), Nat.zero_add]
    | cons d x'' =>
      have hlast : (c :: d :: x'').getLast? = (d :: x'').getLast? :=
        List.getLast?_cons_cons
      rw [show ((c :: d :: x'') ++ y) = c :: d :: (x'' ++ y) from rfl, countPair_cons_cons]
      rw [show (d :: (x'' ++ y)) = (d :: x'') ++ y from rfl]
      rw [ih y (by rw [← hlast]; exact h), countPair_cons_cons]
      omega

/-- Appending before a list whose head is not `b` adds the pair counts
exactly. -/
lemma countPair_append_right_eq (a b : Char) :
    ∀ (x y : List Char), y.head? ≠ some b →
      countPair a b (x ++ y) = countPair a b x + countPair a b y := by
  intro x
  induction x with
  | nil => intro y h; rw [List.nil_append, countPair_nil, Nat.zero_add]
  | cons c x' ih =>
    intro y h
    cases x' with
    | nil =>
      rw [countPair_single, Nat.zero_add]
      cases y with
      | nil => rfl
      | cons d y' =>
        have hdb : d ≠ b := by
          intro hc
          exact h (by rw [hc]; rfl)
        rw [show ([c] ++ d :: y') = c :: d :: y' from rfl, countPair_cons_cons,
          if_neg (fun hh => hdb hh.2), Nat.zero_add]
    | cons d x'' =>
      rw [show ((c :: d :: x'') ++ y) = c :: d :: (x'' ++ y) from rfl, countPair_cons_cons]
      rw [show (d :: (x'' ++ y)) = (d :: x'') ++ y from rfl]
      rw [ih y h, countPair_cons_cons]
      omega

namespace BinaryApp

/-- Branch-free restatement of `handleSubmit`, used for case analysis. -/
lemma handleSubmit_eq (rand : ℚ) (input : List Char) :
    handleSubmit rand input
      = if jsTrim input = [] then .error errAskMsg
        else .ok ("The universe has decided: You ".data
            ++ toLowerList (if rand < 1/2 then "SHOULD".data else "SHOULDNT".data)
            ++ " ".data ++ jsTrim input ++ "!".data) := rfl

lemma toLower_msg_should (T : List Char) :
    toLowerList ("The universe has decided: You ".data ++ toLowerList "SHOULD".data
        ++ " ".data ++ T ++ "!".data)
      = "the universe has decided: you ".data ++ "should".data ++ " ".data
        ++ toLowerList T ++ "!".data := by
  simp only [toLowerList, List.map_append]
  rw [show ("The universe has decided: You ".data).map Char.toLower
      = "the universe has decided: you ".data from by decide]
  rw [show ((("SHOULD".data).map Char.toLower).map Char.toLower) = "should".data from by decide]
  rw [show ((" ".data).map Char.toLower) = " ".data from by decide]
  rw [show (("!".data).map Char.toLower) = "!".data from by decide]

lemma toLower_msg_shouldnt (T : List Char) :
    toLowerList ("The universe has decided: You ".data ++ toLowerList "SHOULDNT".data
        ++ " ".data ++ T ++ "!".data)
      = "the universe has decided: you ".data ++ "shouldnt".data ++ " ".data
        ++ toLowerList T ++ "!".data := by
  simp only [toLowerList, List.map_append]
  rw [show ("The universe has decided: You ".data).map Char.toLower
      = "the universe has decided: you ".data from by decide]
  rw [show ((("SHOULDNT".data).map Char.toLower).map Char.toLower) = "shouldnt".data
    from by decide]
  rw [show ((" ".data).map Char.toLower) = " ".data from by decide]
  rw [show (("!".data).map Char.toLower) = "!".data from by decide]

lemma should_infix_msg (T' : List Char) :
    ("should ".data ++ T') <:+:
      ("the universe has decided: you ".data ++ "should".data ++ " ".data
        ++ T' ++ "!".data) := by
  refine ⟨"the universe has decided: you ".data, "!".data, ?_⟩
  simp only [List.append_assoc]
  rfl

lemma shouldnt_infix_msg (T' : List Char) :
    ("shouldnt ".data ++ T') <:+:
      ("the universe has decided: you ".data ++ "shouldnt".data ++ " ".data
        ++ T' ++ "!".data) := by
  refine ⟨"the universe has decided: you ".data, "!".data, ?_⟩
  simp only [List.append_assoc]
  rfl

/-- The affirmative message never contains the negative phrase: the
message has no adjacent `dn` pair outside `T'` itself, while the phrase
`shouldnt T'` has one more than `T'`. -/
lemma not_shouldnt_infix (T' : List Char)
    (h : ("shouldnt ".data ++ T') <:+:
      ("the universe has decided: you ".data ++ "should".data ++ " ".data
        ++ T' ++ "!".data)) :
    False := by
  have hle := countPair_infix_le 'd' 'n' _ _ h
  have hL : countPair 'd' 'n' ("shouldnt ".data ++ T')
      = 1 + countPair 'd' 'n' T' := by
    rw [countPair_append_left_eq 'd' 'n' "shouldnt ".data T' (by decide)]
    rw [show countPair 'd' 'n' "shouldnt ".data = 1 from by decide]
  have hR : countPair 'd' 'n'
      ("the universe has decided: you ".data ++ "should".data ++ " ".data
        ++ T' ++ "!".data) = countPair 'd' 'n' T' := by
    rw [countPair_append_right_eq 'd' 'n' _ "!".data (by decide)]
    rw [countPair_append_left_eq 'd' 'n' _ T' (by decide)]
    rw [show countPair 'd' 'n'
      ("the universe has decided: you ".data ++ "should".data ++ " ".data) = 0
      from by decide]
    rw [show countPair 'd' 'n' "!".data = 0 from by decide]
    omega
  omega

/-- The negative message never contains the affirmative phrase: the
message has no adjacent `d␣` pair outside `T'` itself, while the phrase
`should T'` has one more than `T'`. -/
lemma not_should_infix (T' : List Char)
    (h : ("should ".data ++ T') <:+:
      ("the universe has decided: you ".data ++ "shouldnt".data ++ " ".data
        ++ T' ++ "!".data)) :
    False := by
  have hle := countPair_infix_le 'd' ' ' _ _ h
  have hL : countPair 'd' ' ' ("should ".data ++ T')
      = 1 + countPair 'd' ' ' T' := by
    rw [countPair_append_left_eq 'd' ' ' "should ".data T' (by decide)]
    rw [show countPair 'd' ' ' "should ".data = 1 from by decide]
  have hR : countPair 'd' ' '
      ("the universe has decided: you ".data ++ "shouldnt".data ++ " ".data
        ++ T' ++ "!".data) = countPair 'd' ' ' T' := by
    rw [countPair_append_right_eq 'd' ' ' _ "!".data (by decide)]
    rw [countPair_append_left_eq 'd' ' ' _ T' (by decide)]
    rw [show countPair 'd' ' '
      ("the universe has decided: you ".data ++ "shouldnt".data ++ " ".data) = 0
      from by decide]
    rw [show countPair 'd' ' ' "!".data = 0 from by decide]
    omega
  omega

/-- C6: the binary variant fails with the validation error when the
trimmed topic is empty; otherwise, for either value of the random draw,
the produced message contains (case-insensitively) exactly one of the
phrases `should <topic>` / `shouldnt <topic>` — never both, never
neither. -/
theorem binary_decide_exactly_one (rand : ℚ) (input : List Char) :
    (jsTrim input = [] → handleSubmit rand input = .error errAskMsg)
    ∧ ∀ msg, handleSubmit rand input = .ok msg →
        ((("should ".data ++ toLowerList (jsTrim input)) <:+: toLowerList msg
            ∧ ¬ ("shouldnt ".data ++ toLowerList (jsTrim input)) <:+: toLowerList msg)
        ∨ (¬ (("should ".data ++ toLowerList (jsTrim input)) <:+: toLowerList msg)
            ∧ ("shouldnt ".data ++ toLowerList (jsTrim input)) <:+: toLowerList msg)) := by
  constructor
  · intro h
    rw [handleSubmit_eq, if_pos h]
  · intro msg hok
    by_cases hemp : jsTrim input = []
    · rw [handleSubmit_eq, if_pos hemp] at hok
      exact absurd hok (fun hh => Except.noConfusion hh)
    · rw [handleSubmit_eq, if_neg hemp] at hok
      by_cases hrand : rand < 1/2
      · rw [if_pos hrand] at hok
        have hmsg := (Except.ok.inj hok).symm
        subst hmsg
        rw [toLower_msg_should (jsTrim input)]
        exact Or.inl ⟨should_infix_msg (toLowerList (jsTrim input)),
          fun hcon => not_shouldnt_infix (toLowerList (jsTrim input)) hcon⟩
      · rw [if_neg hrand] at hok
        have hmsg := (Except.ok.inj hok).symm
        subst hmsg
        rw [toLower_msg_shouldnt (jsTrim input)]
        exact Or.inr ⟨fun hcon => not_should_infix (toLowerList (jsTrim input)) hcon,
          shouldnt_infix_msg (toLowerList (jsTrim input))⟩

/-- Witness for C6: the draw 1/4 on topic `eat pizza` yields the
affirmative message, which contains exactly the `should eat pizza`
phrase; the blank topic fails with the validation error. -/
theorem binary_decide_exactly_one_witness :
    handleSubmit (1/4) "eat pizza".data
        = .ok "The universe has decided: You should eat pizza!".data
    ∧ ((("should ".data ++ toLowerList (jsTrim "eat pizza".data)) <:+:
          toLowerList "The universe has decided: You should eat pizza!".data
        ∧ ¬ ("shouldnt ".data ++ toLowerList (jsTrim "eat pizza".data)) <:+:
          toLowerList "The universe has decided: You should eat pizza!".data)
      ∨ (¬ (("should ".data ++ toLowerList (jsTrim "eat pizza".data)) <:+:
          toLowerList "The universe has decided: You should eat pizza!".data)
        ∧ ("shouldnt ".data ++ toLowerList (jsTrim "eat pizza".data)) <:+:
          toLowerList "The universe has decided: You should eat pizza!".data))
    ∧ handleSubmit (1/4) "   ".data = .error errAskMsg := by
  have hok : handleSubmit (1/4) "eat pizza".data
      = .ok "The universe has decided: You should eat pizza!".data := by
    norm_num [handleSubmit]
    decide
  exact ⟨hok, (binary_decide_exactly_one (1/4) "eat pizza".data).2 _ hok,
    (binary_decide_exactly_one (1/4) "   ".data).1 (by decide)⟩

end BinaryApp
